import Mathlib

/-
Verification of the exchange matching engine (orderbook-server).

Shallow embedding of the TypeScript sources:
  src/orderbook-server/src/data-structures/PriceLevelTree.ts
  src/orderbook-server/src/orderbook/OrderbookManager.ts   (class Orderbook)
  src/orderbook-server/src/risk/RiskManager.ts             (lockFunds / unlockFunds)
  src/orderbook-server/src/redis/RedisService.ts           (trade channels and keys)

JavaScript numbers are modelled as integers (prices and quantities in the
smallest currency unit); every operation the verified statements depend on
(comparison, min, addition, subtraction, multiplication) is exact in both
models.  The only real-number division in the sources, the averagePrice
computation, is modelled by integer division; no statement below inspects
averagePrice.  JS `Map`s are association lists with unique keys
(`aget`/`aset`/`adel` mirror `Map.get`/`Map.set`/`Map.delete`), and object
mutation is explicit state passing.  Timestamps and random uuid trade ids
are not modelled: no verified property mentions them.
-/

set_option autoImplicit false

namespace Exch

abbrev Price := ℤ

abbrev Qty := ℤ

section AListOps

variable {κ : Type} {ν : Type} [DecidableEq κ]

/-- Lookup in an association list, mirroring JS `Map.get` (unique keys). -/
def aget : List (κ × ν) → κ → Option ν
  | [], _ => none
  | (k, v) :: rest, key => if key = k then some v else aget rest key

/-- Update/insert, mirroring JS `Map.set`: replace in place if the key is
present, otherwise append at the end. -/
def aset : List (κ × ν) → κ → ν → List (κ × ν)
  | [], key, val => [(key, val)]
  | (k, v) :: rest, key, val =>
      if key = k then (key, val) :: rest else (k, v) :: aset rest key val

/-- Deletion, mirroring JS `Map.delete` (removes the entry for the key). -/
def adel (m : List (κ × ν)) (key : κ) : List (κ × ν) :=
  m.filter (fun e => e.1 ≠ key)

theorem aget_aset (m : List (κ × ν)) (k : κ) (v : ν) (q : κ) :
    aget (aset m k v) q = if q = k then some v else aget m q := by
  induction m with
  | nil => simp [aget, aset]
  | cons e rest ih =>
      obtain ⟨a, w⟩ := e
      by_cases hka : k = a
      · subst hka
        by_cases hq : q = k <;> simp [aget, aset, hq]
      · by_cases hq : q = a
        · subst hq
          have hqk : ¬ q = k := fun h => hka h.symm
          simp [aget, aset, hka, hqk]
        · by_cases hqk : q = k
          · subst hqk
            simp [aget, aset, hka, hq, ih]
          · simp [aget, aset, hka, hq, hqk, ih]

theorem aget_adel (m : List (κ × ν)) (k : κ) (q : κ) :
    aget (adel m k) q = if q = k then none else aget m q := by
  induction m with
  | nil => simp [aget, adel]
  | cons e rest ih =>
      obtain ⟨a, w⟩ := e
      by_cases hak : a = k
      · subst hak
        have hd : adel ((a, w) :: rest) a = adel rest a := by simp [adel]
        rw [hd, ih]
        by_cases hq : q = a <;> simp [aget, hq]
      · have hd : adel ((a, w) :: rest) k = (a, w) :: adel rest k := by
          simp [adel, hak]
        rw [hd]
        by_cases hq : q = a
        · subst hq
          simp [aget, hak]
        · simp [aget, hq, ih]

theorem aget_eq_none_of_nil (m : List (κ × ν)) (h : ∀ q, aget m q = none) :
    m = [] := by
  cases m with
  | nil => rfl
  | cons e rest =>
      exfalso
      have h' := h e.1
      simp [aget] at h'

end AListOps

/-- One aggregated price level, from PriceLevelTree.ts (interface PriceLevel).
`orderCount` is an integer because the source decrements it without a floor. -/
structure PriceLevel where
  price : Price
  totalQuantity : Qty
  orderCount : ℤ
  orderIds : List String
  deriving Repr, DecidableEq

/-- The per-side ordered price index, from PriceLevelTree.ts (class
PriceLevelTree).  `levels` models the `Map<number, PriceLevel>`;
`sortedPrices` models the sorted array of prices. -/
structure PriceLevelTree where
  levels : List (Price × PriceLevel)
  sortedPrices : List Price
  isAscending : Bool
  deriving Repr, DecidableEq

/-- Constructor of PriceLevelTree: empty maps, the ordering fixed by the flag
(ascending for asks, descending for bids). -/
def PriceLevelTree.empty (isAscending : Bool) : PriceLevelTree :=
  ⟨[], [], isAscending⟩

/-- PriceLevelTree.insertSorted: walk the sorted array and splice the new price
before the first element that compares after it (ascending: first strictly
greater price; descending: first strictly smaller price). -/
def insertSortedList (isAscending : Bool) (price : Price) : List Price → List Price
  | [] => [price]
  | q :: rest =>
      if (if isAscending then price < q else q < price) then price :: q :: rest
      else q :: insertSortedList isAscending price rest

/-- PriceLevelTree.addOrder: add quantity and the order id to an existing
level, or create the level and insert its price into the sorted array. -/
def PriceLevelTree.addOrder (t : PriceLevelTree) (price : Price) (quantity : Qty)
    (orderId : String) : PriceLevelTree :=
  match aget t.levels price with
  | some lvl =>
      let lvl' : PriceLevel :=
        { lvl with totalQuantity := lvl.totalQuantity + quantity,
                   orderCount := lvl.orderCount + 1,
                   orderIds := lvl.orderIds ++ [orderId] }
      { t with levels := aset t.levels price lvl' }
  | none =>
      { t with
          levels := aset t.levels price ⟨price, quantity, 1, [orderId]⟩,
          sortedPrices := insertSortedList t.isAscending price t.sortedPrices }

/-- PriceLevelTree.removeOrder: subtract the quantity, decrement the count,
filter the id out of the FIFO, and delete the whole level when the remaining
total or the count drops to zero or below.  The source's intermediate
mutated level object is inlined: the deletion condition reads the updated
total and count directly. -/
def PriceLevelTree.removeOrder (t : PriceLevelTree) (price : Price) (quantity : Qty)
    (orderId : String) : PriceLevelTree :=
  match aget t.levels price with
  | none => t
  | some lvl =>
      if lvl.totalQuantity - quantity ≤ 0 ∨ lvl.orderCount - 1 ≤ 0 then
        { t with levels := adel t.levels price,
                 sortedPrices := t.sortedPrices.filter (fun p => p ≠ price) }
      else
        { t with levels := aset t.levels price ⟨lvl.price, lvl.totalQuantity - quantity, lvl.orderCount - 1, lvl.orderIds.filter (fun i => i ≠ orderId)⟩ }

/-- PriceLevelTree.getBestPrice: the head of the sorted price array. -/
def PriceLevelTree.getBestPrice (t : PriceLevelTree) : Option Price :=
  t.sortedPrices.head?

/-- PriceLevelTree.getLevel. -/
def PriceLevelTree.getLevel (t : PriceLevelTree) (price : Price) : Option PriceLevel :=
  aget t.levels price

/-- PriceLevelTree.isEmpty. -/
def PriceLevelTree.isEmpty (t : PriceLevelTree) : Bool :=
  t.sortedPrices.isEmpty

inductive Side where
  | buy
  | sell
  deriving Repr, DecidableEq

inductive OrderType where
  | limit
  | market
  deriving Repr, DecidableEq

inductive TimeInForce where
  | GTC
  | IOC
  | FOK
  deriving Repr, DecidableEq

/-- Order status from types.ts; the source string "open" is the constructor
`opened` (`open` is a Lean keyword) and "partially_filled" is
`partiallyFilled`. -/
inductive OrderStatus where
  | pending
  | opened
  | filled
  | cancelled
  | rejected
  | partiallyFilled
  deriving Repr, DecidableEq

/-- Order record from types.ts, restricted to the fields the matching code
reads or writes (timestamps, sequence numbers and priority scores are never
consulted by Orderbook.ts). -/
structure Order where
  orderId : String
  userId : Option String
  side : Side
  orderType : OrderType
  price : Price
  quantity : Qty
  filledQuantity : Qty
  remainingQuantity : Qty
  status : OrderStatus
  timeInForce : TimeInForce
  deriving Repr, DecidableEq

/-- Fill record from types.ts, without the random uuid trade id and the
timestamp (no claim mentions them). -/
structure Fill where
  price : Price
  quantity : Qty
  buyerOrderId : String
  sellerOrderId : String
  buyerUserId : Option String
  sellerUserId : Option String
  deriving Repr, DecidableEq

inductive ResultStatus where
  | accepted
  | rejected
  | filled
  | partiallyFilled
  | opened
  deriving Repr, DecidableEq

/-- OrderResult from types.ts. -/
structure OrderResult where
  orderId : String
  status : ResultStatus
  executedQuantity : Qty
  remainingQuantity : Qty
  averagePrice : Price
  fills : List Fill
  message : Option String
  deriving Repr, DecidableEq

/-- TradingPair config fields consulted by Orderbook.validateOrder. -/
structure TradingPair where
  symbol : String
  minOrderSize : Qty
  maxOrderSize : Qty
  deriving Repr, DecidableEq

/-- The per-pair book, from OrderbookManager.ts (class Orderbook): bid tree
descending, ask tree ascending, the map of active orders by id, and the last
trade price. -/
structure Orderbook where
  tradingPair : TradingPair
  bids : PriceLevelTree
  asks : PriceLevelTree
  orders : List (String × Order)
  lastPrice : Price
  deriving Repr, DecidableEq

/-- Orderbook constructor: empty trees (bids descending, asks ascending),
empty order map, last price 0. -/
def Orderbook.init (tradingPair : TradingPair) : Orderbook :=
  ⟨tradingPair, PriceLevelTree.empty false, PriceLevelTree.empty true, [], 0⟩

/-- Orderbook.createFill: only the incoming (taker) order is identified; the
resting side gets the constant order id "market" and no user id. -/
def createFill (order : Order) (price : Price) (quantity : Qty) : Fill :=
  { price := price,
    quantity := quantity,
    buyerOrderId := if order.side = Side.buy then order.orderId else "market",
    sellerOrderId := if order.side = Side.sell then order.orderId else "market",
    buyerUserId := if order.side = Side.buy then order.userId else none,
    sellerUserId := if order.side = Side.sell then order.userId else none }

/-- Orderbook.updatePriceLevel: remove the matched quantity and the head id
from the level, then mutate the matched order's record in the order map;
the order is deleted from the map (status "filled") when its remaining
quantity drops to 0 or below.  The third component is the matched order's
updated record, observable through the aliased object in the source. -/
def updatePriceLevel (tree : PriceLevelTree) (orders : List (String × Order))
    (price : Price) (quantity : Qty) (orderId : String) :
    PriceLevelTree × List (String × Order) × Option Order :=
  let tree' := tree.removeOrder price quantity orderId
  match aget orders orderId with
  | none => (tree', orders, none)
  | some o =>
      let o' : Order :=
        { o with filledQuantity := o.filledQuantity + quantity,
                 remainingQuantity := o.remainingQuantity - quantity }
      if o'.remainingQuantity ≤ 0 then
        (tree', adel orders orderId, some { o' with status := OrderStatus.filled })
      else
        (tree', aset orders orderId o', some o')

/-- Mutable state of the matching loops in executeMarketOrder /
executeLimitOrder: the opposite-side tree, the order map, and the running
accumulators of the loop body. -/
structure MatchState where
  tree : PriceLevelTree
  orders : List (String × Order)
  fills : List Fill
  remaining : Qty
  executedQty : Qty
  executedValue : Qty
  lastPrice : Price
  deriving Repr, DecidableEq

/-- One matching-loop iteration shared by both loops (the body of the while
loops in executeMarketOrder and executeLimitOrder): fill
min(remaining, level.totalQuantity) at the best price against the order id at
the head of the level's FIFO. -/
def matchAtBest (order : Order) (s : MatchState) (bestPrice : Price)
    (level : PriceLevel) : MatchState :=
  let fillQuantity := min s.remaining level.totalQuantity
  let fill := createFill order bestPrice fillQuantity
  let r := updatePriceLevel s.tree s.orders bestPrice fillQuantity (level.orderIds.headD "")
  { tree := r.1,
    orders := r.2.1,
    fills := s.fills ++ [fill],
    remaining := s.remaining - fillQuantity,
    executedQty := s.executedQty + fillQuantity,
    executedValue := s.executedValue + fillQuantity * bestPrice,
    lastPrice := bestPrice }

/-- The while loop of executeMarketOrder: walk best prices while quantity
remains and the opposite tree is non-empty.  The fuel argument only bounds
the recursion; each iteration deletes a price level or zeroes the remaining
quantity, so the fuel passed by `executeMarketOrder` is never exhausted. -/
def marketLoop (order : Order) : Nat → MatchState → MatchState
  | 0, s => s
  | fuel + 1, s =>
      if s.remaining > 0 ∧ s.tree.isEmpty = false then
        match s.tree.getBestPrice with
        | none => s
        | some bestPrice =>
            match s.tree.getLevel bestPrice with
            | none => s
            | some level => marketLoop order fuel (matchAtBest order s bestPrice level)
      else s

/-- The while loop of executeLimitOrder: as `marketLoop`, but the walk stops
at the first best price that does not cross the incoming limit (buy: best ask
must be ≤ the limit; sell: best bid must be ≥ the limit). -/
def limitLoop (order : Order) : Nat → MatchState → MatchState
  | 0, s => s
  | fuel + 1, s =>
      if s.remaining > 0 ∧ s.tree.isEmpty = false then
        match s.tree.getBestPrice with
        | none => s
        | some bestPrice =>
            if (if order.side = Side.buy then bestPrice ≤ order.price
                else bestPrice ≥ order.price) then
              match s.tree.getLevel bestPrice with
              | none => s
              | some level => limitLoop order fuel (matchAtBest order s bestPrice level)
            else s
      else s

/-- Initial loop state: the opposite-side tree and the book's order map, no
fills, the full quantity remaining. -/
def initState (ob : Orderbook) (order : Order) : MatchState :=
  { tree := if order.side = Side.buy then ob.asks else ob.bids,
    orders := ob.orders,
    fills := [],
    remaining := order.quantity,
    executedQty := 0,
    executedValue := 0,
    lastPrice := ob.lastPrice }

/-- Write the loop state back into the book: the mutated tree is the side
opposite the incoming order; the order map and last price were mutated in
place by the source. -/
def writeBack (ob : Orderbook) (side : Side) (s : MatchState) : Orderbook :=
  if side = Side.buy then
    { ob with asks := s.tree, orders := s.orders, lastPrice := s.lastPrice }
  else
    { ob with bids := s.tree, orders := s.orders, lastPrice := s.lastPrice }

/-- Orderbook.executeMarketOrder.  Rejected with "No liquidity available"
when the opposite tree is empty at entry; otherwise the walk runs, and an
IOC remainder turns the result into a rejection whose fills array is
emptied even though the walk already consumed the book. -/
def Orderbook.executeMarketOrder (ob : Orderbook) (order : Order) :
    Orderbook × OrderResult :=
  let oppositeTree := if order.side = Side.buy then ob.asks else ob.bids
  if oppositeTree.isEmpty then
    (ob, ⟨order.orderId, ResultStatus.rejected, 0, order.quantity, 0, [],
          some "No liquidity available"⟩)
  else
    let s := marketLoop order (oppositeTree.sortedPrices.length + 1) (initState ob order)
    let averagePrice := if s.executedQty > 0 then s.executedValue / s.executedQty else 0
    let ob' := writeBack ob order.side s
    if order.timeInForce = TimeInForce.IOC ∧ s.remaining > 0 then
      (ob', ⟨order.orderId, ResultStatus.rejected, s.executedQty, s.remaining,
             averagePrice, [], some "IOC order not fully executable"⟩)
    else
      let status :=
        if s.remaining = 0 then ResultStatus.filled
        else if s.executedQty > 0 then ResultStatus.partiallyFilled
        else ResultStatus.rejected
      (ob', ⟨order.orderId, status, s.executedQty, s.remaining, averagePrice,
             s.fills, none⟩)

/-- Orderbook.executeLimitOrder.  Matches first, then applies time-in-force:
the FOK check runs only after the walk has already mutated the book; IOC
returns "filled" or "partially_filled" (even at zero executed); GTC places
any remainder on the book. -/
def Orderbook.executeLimitOrder (ob : Orderbook) (order : Order) :
    Orderbook × OrderResult :=
  let oppositeTree := if order.side = Side.buy then ob.asks else ob.bids
  let s := limitLoop order (oppositeTree.sortedPrices.length + 1) (initState ob order)
  let ob' := writeBack ob order.side s
  if order.timeInForce = TimeInForce.FOK ∧ s.remaining > 0 then
    (ob', ⟨order.orderId, ResultStatus.rejected, 0, order.quantity, 0, [],
           some "FOK order not fully executable"⟩)
  else if order.timeInForce = TimeInForce.IOC then
    let status :=
      if s.executedQty = order.quantity then ResultStatus.filled
      else ResultStatus.partiallyFilled
    let averagePrice := if s.executedQty > 0 then s.executedValue / s.executedQty else 0
    (ob', ⟨order.orderId, status, s.executedQty, s.remaining, averagePrice,
           s.fills, none⟩)
  else
    let ob2 :=
      if s.remaining > 0 then
        let updatedOrder : Order :=
          { order with filledQuantity := s.executedQty,
                       remainingQuantity := s.remaining,
                       status := if s.executedQty > 0 then OrderStatus.partiallyFilled
                                 else OrderStatus.opened }
        let withOrder := { ob' with orders := aset ob'.orders order.orderId updatedOrder }
        if order.side = Side.buy then
          { withOrder with bids := withOrder.bids.addOrder order.price s.remaining order.orderId }
        else
          { withOrder with asks := withOrder.asks.addOrder order.price s.remaining order.orderId }
      else ob'
    let averagePrice := if s.executedQty > 0 then s.executedValue / s.executedQty else 0
    let status :=
      if s.remaining = 0 then ResultStatus.filled
      else if s.executedQty > 0 then ResultStatus.partiallyFilled
      else ResultStatus.opened
    (ob2, ⟨order.orderId, status, s.executedQty, s.remaining, averagePrice,
           s.fills, none⟩)

/-- Orderbook.validateOrder: quantity bounds against the pair config, and a
positive price for limit orders.  Returns the rejection message, if any (the
source interpolates the offending numbers into the message; the text here is
the fixed prefix). -/
def validateOrder (tp : TradingPair) (order : Order) : Option String :=
  if order.quantity < tp.minOrderSize then some "Order size below minimum"
  else if order.quantity > tp.maxOrderSize then some "Order size above maximum"
  else if order.orderType = OrderType.limit ∧ order.price ≤ 0 then
    some "Limit orders must have a positive price"
  else none

/-- Orderbook.addOrder: validate, then dispatch on the order type. -/
def Orderbook.addOrder (ob : Orderbook) (order : Order) : Orderbook × OrderResult :=
  match validateOrder ob.tradingPair order with
  | some msg =>
      (ob, ⟨order.orderId, ResultStatus.rejected, 0, order.quantity, 0, [], some msg⟩)
  | none =>
      if order.orderType = OrderType.market then ob.executeMarketOrder order
      else ob.executeLimitOrder order

/-- Orderbook.cancelOrder: false when the id is not in the active-order map;
otherwise remove the remaining quantity from the order's side tree and drop
the order from the map. -/
def Orderbook.cancelOrder (ob : Orderbook) (orderId : String) : Orderbook × Bool :=
  match aget ob.orders orderId with
  | none => (ob, false)
  | some o =>
      let ob1 :=
        if o.side = Side.buy then
          { ob with bids := ob.bids.removeOrder o.price o.remainingQuantity orderId }
        else
          { ob with asks := ob.asks.removeOrder o.price o.remainingQuantity orderId }
      ({ ob1 with orders := adel ob1.orders orderId }, true)

/-- RedisService.publishTrade: the publish channel is derived from the fill's
buyerOrderId (template `market:<buyerOrderId>:trades`). -/
def publishTradeChannel (f : Fill) : String :=
  "market:" ++ f.buyerOrderId ++ ":trades"

/-- RedisService.subscribeToTrades: the subscription channel is derived from
the trading pair (template `market:<pair>:trades`). -/
def subscribeTradesChannel (tradingPair : String) : String :=
  "market:" ++ tradingPair ++ ":trades"

/-- RedisService.storeTrade: the storage key is derived from the fill's
buyerOrderId (template `trades:<buyerOrderId>:history`). -/
def storeTradeKey (f : Fill) : String :=
  "trades:" ++ f.buyerOrderId ++ ":history"

/-- RedisService.getRecentTrades: the lookup key is derived from the trading
pair (template `trades:<pair>:history`). -/
def recentTradesKey (tradingPair : String) : String :=
  "trades:" ++ tradingPair ++ ":history"

/-- RedisService.storeTrade over a key-value store of lists: lPush prepends
under the buyerOrderId-derived key, lTrim keeps the newest 1000. -/
def storeTrade (store : List (String × List Fill)) (f : Fill) :
    List (String × List Fill) :=
  let key := storeTradeKey f
  aset store key ((f :: ((aget store key).getD [])).take 1000)

/-- RedisService.getRecentTrades: lRange under the pair-derived key. -/
def getRecentTrades (store : List (String × List Fill)) (tradingPair : String)
    (limit : Nat) : List Fill :=
  ((aget store (recentTradesKey tradingPair)).getD []).take limit

/-- UserPosition from types.ts, restricted to the numeric fields that
lockFunds / unlockFunds read or write (the source additionally keeps a user
id, pair symbol and a last-trade timestamp on the record). -/
structure UserPosition where
  baseBalance : ℤ
  quoteBalance : ℤ
  lockedBase : ℤ
  lockedQuote : ℤ
  dailyVolume : ℤ
  openOrderCount : ℤ
  deriving Repr, DecidableEq

/-- RiskManager.lockFunds for one user position (the source first resolves
the position from its per-(user, pair) map): a buy moves quantity × price
from the quote balance into lockedQuote, a sell moves quantity from the base
balance into lockedBase; the open-order count is incremented; returns false
without touching the position when the balance is insufficient. -/
def lockFunds (pos : UserPosition) (side : Side) (quantity price : ℤ) :
    UserPosition × Bool :=
  if side = Side.buy then
    let requiredQuote := quantity * price
    if pos.quoteBalance ≥ requiredQuote then
      ({ pos with quoteBalance := pos.quoteBalance - requiredQuote,
                  lockedQuote := pos.lockedQuote + requiredQuote,
                  openOrderCount := pos.openOrderCount + 1 }, true)
    else (pos, false)
  else
    if pos.baseBalance ≥ quantity then
      ({ pos with baseBalance := pos.baseBalance - quantity,
                  lockedBase := pos.lockedBase + quantity,
                  openOrderCount := pos.openOrderCount + 1 }, true)
    else (pos, false)

/-- RiskManager.unlockFunds for one user position: moves the locked amount
back and decrements the open-order count with a floor at 0. -/
def unlockFunds (pos : UserPosition) (side : Side) (quantity price : ℤ) :
    UserPosition :=
  let pos' :=
    if side = Side.buy then
      let quoteAmount := quantity * price
      { pos with lockedQuote := pos.lockedQuote - quoteAmount,
                 quoteBalance := pos.quoteBalance + quoteAmount }
    else
      { pos with lockedBase := pos.lockedBase - quantity,
                 baseBalance := pos.baseBalance + quantity }
  { pos' with openOrderCount := max 0 (pos'.openOrderCount - 1) }

/-- Modelled from the spec: the enhanced order pipeline that wires the
RiskGate into acceptance is absent from src (the Orderbook under src never
calls the RiskManager); spec section 4.4 requires acceptance to lock
`quantity × price` of quote for a buy or `quantity` of base for a sell via
the RiskGate.  The RiskGate itself is `lockFunds` from src. -/
def acceptOrderLock (pos : UserPosition) (side : Side) (quantity price : ℤ) :
    UserPosition × Bool :=
  lockFunds pos side quantity price

/-- Modelled from the spec: cancellation of a resting order unlocks the
associated funds via the RiskGate (spec sections 4.2 and 4.4); the src
Orderbook.cancelOrder performs no such call.  The RiskGate itself is
`unlockFunds` from src. -/
def cancelOrderUnlock (pos : UserPosition) (side : Side) (quantity price : ℤ) :
    UserPosition :=
  unlockFunds pos side quantity price

section Scenarios

/-- Demo pair configuration (the BTCUSD entry of TRADING_PAIRS). -/
def pair0 : TradingPair := ⟨"BTCUSD", 1, 1000000⟩

/-- A fresh book for the demo pair. -/
def emptyBook : Orderbook := Orderbook.init pair0

/-- A limit-order intent as built by OrderbookManager.processOrder. -/
def mkLimit (id : String) (uid : Option String) (side : Side) (price quantity : ℤ)
    (tif : TimeInForce) : Order :=
  ⟨id, uid, side, OrderType.limit, price, quantity, 0, quantity,
   OrderStatus.pending, tif⟩

/-- A market-order intent as built by OrderbookManager.processOrder
(price 0). -/
def mkMarket (id : String) (uid : Option String) (side : Side) (quantity : ℤ)
    (tif : TimeInForce) : Order :=
  ⟨id, uid, side, OrderType.market, 0, quantity, 0, quantity,
   OrderStatus.pending, tif⟩

/-- Book holding a single resting ask of 1 at price 10 (user "m"). -/
def c1Book0 : Orderbook :=
  (emptyBook.addOrder (mkLimit "s1" (some "m") Side.sell 10 1 TimeInForce.GTC)).1

/-- A FOK buy for 2 at limit 10 against `c1Book0` (only 1 available). -/
def c1Run : Orderbook × OrderResult :=
  c1Book0.addOrder (mkLimit "b1" (some "t") Side.buy 10 2 TimeInForce.FOK)

/-- Book holding two resting asks of 1 each at the same price 10 (users
"m1" and "m2", FIFO order s1 then s2). -/
def c2Book0 : Orderbook :=
  ((emptyBook.addOrder (mkLimit "s1" (some "m1") Side.sell 10 1 TimeInForce.GTC)).1.addOrder
    (mkLimit "s2" (some "m2") Side.sell 10 1 TimeInForce.GTC)).1

/-- A GTC buy for 2 at limit 10 against `c2Book0`. -/
def c2Run : Orderbook × OrderResult :=
  c2Book0.addOrder (mkLimit "b1" (some "t") Side.buy 10 2 TimeInForce.GTC)

/-- Book holding a resting ask of 1 at price 10 owned by user "u". -/
def c3Book0 : Orderbook :=
  (emptyBook.addOrder (mkLimit "s1" (some "u") Side.sell 10 1 TimeInForce.GTC)).1

/-- The same user "u" submits a crossing buy against their own ask. -/
def c3Run : Orderbook × OrderResult :=
  c3Book0.addOrder (mkLimit "b1" (some "u") Side.buy 10 1 TimeInForce.GTC)

/-- A fill on pair BTCUSD whose taker buy order id is "b1", exactly the fill
`c2Run` produces. -/
def c4Fill : Fill := ⟨10, 2, "b1", "market", some "t", none⟩

/-- A limit IOC buy against an empty book (zero executed). -/
def c5Run : Orderbook × OrderResult :=
  emptyBook.addOrder (mkLimit "b1" (some "t") Side.buy 10 1 TimeInForce.IOC)

/-- Book with one resting ask of 1 at 10, then a market IOC buy for 2. -/
def c6Book0 : Orderbook :=
  (emptyBook.addOrder (mkLimit "s1" (some "m") Side.sell 10 1 TimeInForce.GTC)).1

/-- The market IOC buy for 2 against `c6Book0` (only 1 available). -/
def c6Run : Orderbook × OrderResult :=
  c6Book0.addOrder (mkMarket "b1" (some "t") Side.buy 2 TimeInForce.IOC)

/-- Book holding two resting asks of 1 each at price 10 (ids s1, s2), as in
the C2 scenario but under its own name. -/
def c7Book0 : Orderbook :=
  ((emptyBook.addOrder (mkLimit "s1" (some "m1") Side.sell 10 1 TimeInForce.GTC)).1.addOrder
    (mkLimit "s2" (some "m2") Side.sell 10 1 TimeInForce.GTC)).1

/-- The updatePriceLevel call that executeLimitOrder performs for an incoming
buy of 2 against `c7Book0`: fill quantity min(2, level total 2) = 2 charged
to the head order s1 (whose own remaining quantity is 1). -/
def c7Step : PriceLevelTree × List (String × Order) × Option Order :=
  updatePriceLevel c7Book0.asks c7Book0.orders 10 2 "s1"

end Scenarios

/-- C1: FOK atomicity fails in the code.  A FOK buy for 2 against a book
holding a single ask of 1 at an acceptable price is reported rejected with
zero fills and zero executed quantity, yet the matching walk has already
consumed the resting ask: the ask side goes from best price 10 to empty, so
the book is not as it was before the submission. -/
theorem c1_fok_reject_mutates_book :
    c1Run.2.status = ResultStatus.rejected ∧
    c1Run.2.fills = [] ∧
    c1Run.2.executedQuantity = 0 ∧
    c1Book0.asks.getBestPrice = some 10 ∧
    c1Run.1.asks.getBestPrice = none := by
  decide

/-- C2: per-match fill sizing and head consumption fail in the code.  With
two resting asks of 1 each at price 10 (head s1) and an incoming buy of 2,
the code produces a single fill of quantity 2 — not
min(incoming remaining, head remaining) = min(2, 1) = 1 — deletes the whole
level (best ask becomes none), and leaves the second resting order s2
stranded in the active-order map with remaining quantity 1. -/
theorem c2_fill_consumes_whole_level :
    c2Run.2.fills.map Fill.quantity = [2] ∧
    c2Run.1.asks.getBestPrice = none ∧
    (aget c2Run.1.orders "s2").map Order.remainingQuantity = some 1 := by
  decide

/-- C3: self-trade prevention is absent from the code.  User "u" owns the
resting ask s1, and the same user's incoming buy matches it: the match is
not skipped and one fill of quantity 1 is executed with buyer user "u"
against "u"'s own resting order. -/
theorem c3_self_trade_not_skipped :
    (aget c3Book0.orders "s1").map Order.userId = some (some "u") ∧
    c3Run.2.executedQuantity = 1 ∧
    c3Run.2.fills.map Fill.buyerUserId = [some "u"] := by
  decide

/-- C4: trade events and stored history are keyed by the taker's order id,
not the trading pair.  For the BTCUSD fill of `c2Run` (buyer order id "b1"),
the publish channel differs from the channel a BTCUSD trade subscriber
listens on, the storage key differs from the key the recent-trades query
for BTCUSD reads, and store followed by get on the pair returns nothing. -/
theorem c4_trade_keys_not_pair_keyed :
    c2Run.2.fills = [c4Fill] ∧
    publishTradeChannel c4Fill ≠ subscribeTradesChannel "BTCUSD" ∧
    storeTradeKey c4Fill ≠ recentTradesKey "BTCUSD" ∧
    getRecentTrades (storeTrade [] c4Fill) "BTCUSD" 50 = [] := by
  decide

/-- C5: a limit IOC order that executes nothing is reported
"partially_filled" by the code, not "rejected" as the claim states. -/
theorem c5_ioc_zero_executed_not_rejected :
    c5Run.2.executedQuantity = 0 ∧
    c5Run.2.status = ResultStatus.partiallyFilled := by
  decide

/-- C6: a market IOC order that executes partially is reported rejected by
the code — with the opposite side non-empty at entry, executed quantity 1
out of 2, an emptied fills array, and the resting liquidity already
consumed — where the claim requires status "partially_filled" with the
fills returned. -/
theorem c6_market_ioc_partial_rejected :
    c6Book0.asks.getBestPrice = some 10 ∧
    c6Run.2.status = ResultStatus.rejected ∧
    c6Run.2.executedQuantity = 1 ∧
    c6Run.2.fills = [] ∧
    c6Run.1.asks.getBestPrice = none := by
  decide

/-- C7: order-status consistency fails in the code.  The updatePriceLevel
step that executeLimitOrder performs for a buy of 2 against a level of two
asks of 1 each charges the whole fill to the head order s1: the head's final
record has original quantity 1, filled quantity 2, remaining quantity −1 and
status "filled" — so filled + remaining = original still holds, but the
status is "filled" while remaining ≠ 0. -/
theorem c7_filled_with_negative_remaining :
    (c7Step.2.2).map Order.status = some OrderStatus.filled ∧
    (c7Step.2.2).map Order.quantity = some 1 ∧
    (c7Step.2.2).map Order.filledQuantity = some 2 ∧
    (c7Step.2.2).map Order.remainingQuantity = some (-1) := by
  decide

/-- C8: accept-then-cancel round trip.  For any user position with a
non-negative open-order count, if the acceptance-time fund lock succeeds
(order accepted, nothing executed), then the cancellation-time unlock of the
same side, quantity and price restores the position exactly: base balance,
quote balance, locked base, locked quote, daily volume and open-order count
all return to their pre-submission values. -/
theorem c8_accept_cancel_restores_position
    (pos : UserPosition) (side : Side) (quantity price : ℤ)
    (hOk : (acceptOrderLock pos side quantity price).2 = true)
    (hCount : 0 ≤ pos.openOrderCount) :
    cancelOrderUnlock (acceptOrderLock pos side quantity price).1 side quantity price
      = pos := by
  obtain ⟨bb, qb, lb, lq, dv, oc⟩ := pos
  simp only [UserPosition.openOrderCount] at hCount
  cases side with
  | buy =>
      by_cases hbal : qb ≥ quantity * price
      · simp [acceptOrderLock, cancelOrderUnlock, lockFunds, unlockFunds, hbal,
          UserPosition.mk.injEq]
        omega
      · simp [acceptOrderLock, lockFunds, hbal] at hOk
  | sell =>
      by_cases hbal : bb ≥ quantity
      · simp [acceptOrderLock, cancelOrderUnlock, lockFunds, unlockFunds, hbal,
          UserPosition.mk.injEq]
        omega
      · simp [acceptOrderLock, lockFunds, hbal] at hOk

/-- Witness for C8 at a concrete input: a buyer with quote balance 100 locks
2 × 5 = 10 successfully, and cancelling restores the starting position. -/
theorem c8_witness :
    (acceptOrderLock ⟨50, 100, 0, 0, 0, 3⟩ Side.buy 2 5).2 = true ∧
    (0 : ℤ) ≤ (3 : ℤ) ∧
    cancelOrderUnlock (acceptOrderLock ⟨50, 100, 0, 0, 0, 3⟩ Side.buy 2 5).1
      Side.buy 2 5 = ⟨50, 100, 0, 0, 0, 3⟩ := by
  refine ⟨by decide, by decide, ?_⟩
  exact c8_accept_cancel_restores_position ⟨50, 100, 0, 0, 0, 3⟩ Side.buy 2 5
    (by decide) (by decide)

theorem fills_matchAtBest (order : Order) (s : MatchState) (bestPrice : Price)
    (level : PriceLevel) :
    (matchAtBest order s bestPrice level).fills
      = s.fills ++ [createFill order bestPrice (min s.remaining level.totalQuantity)] := by
  rfl

theorem matchAtBest_fills_cases (order : Order) (s : MatchState) (bestPrice : Price)
    (level : PriceLevel) (f : Fill)
    (hf : f ∈ (matchAtBest order s bestPrice level).fills) :
    f ∈ s.fills ∨ ∃ p q, f = createFill order p q := by
  rw [fills_matchAtBest] at hf
  rcases List.mem_append.mp hf with h1 | h2
  · exact Or.inl h1
  · simp only [List.mem_singleton] at h2
    exact Or.inr ⟨_, _, h2⟩

theorem marketLoop_fills_from_createFill (order : Order) :
    ∀ (fuel : Nat) (s : MatchState) (f : Fill),
      f ∈ (marketLoop order fuel s).fills →
      f ∈ s.fills ∨ ∃ p q, f = createFill order p q := by
  intro fuel
  induction fuel with
  | zero => intro s f hf; exact Or.inl hf
  | succ n ih =>
      intro s f hf
      simp only [marketLoop] at hf
      repeat' split at hf
      all_goals first
        | exact Or.inl hf
        | exact (ih _ f hf).elim
            (fun h => matchAtBest_fills_cases order _ _ _ f h) Or.inr

theorem limitLoop_fills_from_createFill (order : Order) :
    ∀ (fuel : Nat) (s : MatchState) (f : Fill),
      f ∈ (limitLoop order fuel s).fills →
      f ∈ s.fills ∨ ∃ p q, f = createFill order p q := by
  intro fuel
  induction fuel with
  | zero => intro s f hf; exact Or.inl hf
  | succ n ih =>
      intro s f hf
      simp only [limitLoop] at hf
      repeat' split at hf
      all_goals first
        | exact Or.inl hf
        | exact (ih _ f hf).elim
            (fun h => matchAtBest_fills_cases order _ _ _ f h) Or.inr

theorem addOrder_fills_from_createFill (ob : Orderbook) (order : Order) (f : Fill)
    (hf : f ∈ (ob.addOrder order).2.fills) :
    ∃ p q, f = createFill order p q := by
  unfold Orderbook.addOrder Orderbook.executeMarketOrder Orderbook.executeLimitOrder at hf
  simp only at hf
  repeat' split at hf
  all_goals first
    | exact (marketLoop_fills_from_createFill order _ _ f hf).resolve_left
        (by simp [initState])
    | exact (limitLoop_fills_from_createFill order _ _ f hf).resolve_left
        (by simp [initState])
    | simp at hf

/-- C10: fills do not identify the resting counterparty.  Every fill that any
submission produces (market or limit, any time-in-force) carries only the
incoming taker order's id and user id: the resting side's order-id field is
the constant string "market" and its user id is absent; in particular an
incoming order with no user id yields a fill whose buyer and seller user
ids are both absent. -/
theorem c10_fills_taker_only (ob : Orderbook) (order : Order) (f : Fill)
    (hf : f ∈ (ob.addOrder order).2.fills) :
    (order.side = Side.buy →
      f.buyerOrderId = order.orderId ∧ f.buyerUserId = order.userId ∧
      f.sellerOrderId = "market" ∧ f.sellerUserId = none) ∧
    (order.side = Side.sell →
      f.sellerOrderId = order.orderId ∧ f.sellerUserId = order.userId ∧
      f.buyerOrderId = "market" ∧ f.buyerUserId = none) ∧
    (order.userId = none → f.buyerUserId = none ∧ f.sellerUserId = none) := by
  obtain ⟨p, q, rfl⟩ := addOrder_fills_from_createFill ob order f hf
  cases hside : order.side <;> simp [createFill, hside]

/-- Witness for C10 at a concrete input: a GTC buy matching one resting ask
produces exactly the fill whose seller order id is "market" and whose seller
user id is absent. -/
theorem c10_witness :
    (⟨10, 1, "b1", "market", some "t", none⟩ : Fill)
        ∈ ((emptyBook.addOrder (mkLimit "s1" (some "m") Side.sell 10 1
              TimeInForce.GTC)).1.addOrder
            (mkLimit "b1" (some "t") Side.buy 10 1 TimeInForce.GTC)).2.fills ∧
    Fill.sellerOrderId ⟨10, 1, "b1", "market", some "t", none⟩ = "market" ∧
    Fill.sellerUserId ⟨10, 1, "b1", "market", some "t", none⟩ = none := by
  have hmem : (⟨10, 1, "b1", "market", some "t", none⟩ : Fill)
      ∈ ((emptyBook.addOrder (mkLimit "s1" (some "m") Side.sell 10 1
            TimeInForce.GTC)).1.addOrder
          (mkLimit "b1" (some "t") Side.buy 10 1 TimeInForce.GTC)).2.fills := by
    decide
  have h := c10_fills_taker_only _ _ _ hmem
  exact ⟨hmem, (h.1 rfl).2.2.1, (h.1 rfl).2.2.2⟩

/-- One public mutating call on a PriceLevelTree. -/
inductive TreeOp where
  | add (price : Price) (quantity : Qty) (orderId : String)
  | remove (price : Price) (quantity : Qty) (orderId : String)
  deriving Repr, DecidableEq

/-- Apply one addOrder / removeOrder call. -/
def applyOp (t : PriceLevelTree) : TreeOp → PriceLevelTree
  | TreeOp.add price quantity orderId => t.addOrder price quantity orderId
  | TreeOp.remove price quantity orderId => t.removeOrder price quantity orderId

/-- A tree reached from the constructor by a sequence of addOrder /
removeOrder calls. -/
def buildTree (isAscending : Bool) (ops : List TreeOp) : PriceLevelTree :=
  ops.foldl applyOp (PriceLevelTree.empty isAscending)

/-- A price is present when the level map holds a level for it. -/
def present (t : PriceLevelTree) (p : Price) : Bool :=
  (aget t.levels p).isSome

/-- The strict order maintained by the sorted price array: ascending for
asks, descending for bids. -/
def priceRel (isAscending : Bool) (a b : Price) : Prop :=
  if isAscending then a < b else b < a

theorem priceRel_trans (isAscending : Bool) {a b c : Price}
    (h1 : priceRel isAscending a b) (h2 : priceRel isAscending b c) :
    priceRel isAscending a c := by
  cases isAscending with
  | false =>
      simp only [priceRel, Bool.false_eq_true, if_false] at h1 h2 ⊢
      exact lt_trans h2 h1
  | true =>
      simp only [priceRel, if_true] at h1 h2 ⊢
      exact lt_trans h1 h2

theorem priceRel_of_not (isAscending : Bool) {a b : Price} (hne : a ≠ b)
    (h : ¬ priceRel isAscending a b) : priceRel isAscending b a := by
  cases isAscending with
  | false =>
      simp only [priceRel, Bool.false_eq_true, if_false] at h ⊢
      exact lt_of_le_of_ne (not_lt.mp h) hne
  | true =>
      simp only [priceRel, if_true] at h ⊢
      exact lt_of_le_of_ne (not_lt.mp h) (Ne.symm hne)

/-- Internal invariant of PriceLevelTree: the sorted price array is strictly
ordered by the construction-time relation and holds exactly the prices whose
levels exist in the map. -/
def TreeInv (t : PriceLevelTree) : Prop :=
  t.sortedPrices.Pairwise (priceRel t.isAscending) ∧
  ∀ p : Price, p ∈ t.sortedPrices ↔ present t p = true

theorem mem_insertSortedList (isAscending : Bool) (p : Price) (l : List Price)
    (q : Price) :
    q ∈ insertSortedList isAscending p l ↔ q = p ∨ q ∈ l := by
  induction l with
  | nil => simp [insertSortedList]
  | cons a rest ih =>
      simp only [insertSortedList]
      by_cases hc : (if isAscending then p < a else a < p)
      · rw [if_pos hc]
        simp only [List.mem_cons]
      · rw [if_neg hc]
        simp only [List.mem_cons, ih]
        tauto

theorem pairwise_insertSortedList (isAscending : Bool) (p : Price) (l : List Price)
    (hl : l.Pairwise (priceRel isAscending)) (hp : p ∉ l) :
    (insertSortedList isAscending p l).Pairwise (priceRel isAscending) := by
  induction l with
  | nil => simp [insertSortedList]
  | cons a rest ih =>
      rcases List.pairwise_cons.mp hl with ⟨ha, hrest⟩
      have hpa : p ≠ a := fun h => hp (h ▸ List.mem_cons_self a rest)
      simp only [insertSortedList]
      by_cases hcond : (if isAscending then p < a else a < p)
      · rw [if_pos hcond]
        have hrel : priceRel isAscending p a := hcond
        refine List.pairwise_cons.mpr ⟨?_, hl⟩
        intro b hb
        rcases List.mem_cons.mp hb with rfl | hbrest
        · exact hrel
        · exact priceRel_trans isAscending hrel (ha b hbrest)
      · rw [if_neg hcond]
        have hrel : priceRel isAscending a p :=
          priceRel_of_not isAscending hpa hcond
        refine List.pairwise_cons.mpr
          ⟨?_, ih hrest (fun hmem => hp (List.mem_cons_of_mem a hmem))⟩
        intro b hb
        rcases (mem_insertSortedList isAscending p rest b).mp hb with rfl | hbrest
        · exact hrel
        · exact ha b hbrest

theorem treeInv_empty (isAscending : Bool) :
    TreeInv (PriceLevelTree.empty isAscending) := by
  constructor
  · simp [PriceLevelTree.empty]
  · intro p
    simp [PriceLevelTree.empty, present, aget]

theorem treeInv_addOrder (t : PriceLevelTree) (price : Price) (quantity : Qty)
    (orderId : String) (h : TreeInv t) :
    TreeInv (t.addOrder price quantity orderId) := by
  obtain ⟨hpw, hmem⟩ := h
  unfold PriceLevelTree.addOrder
  cases hget : aget t.levels price with
  | some lvl =>
      refine ⟨hpw, ?_⟩
      intro p
      by_cases hp : p = price
      · subst hp
        simp only [present, aget_aset, if_pos rfl, Option.isSome_some]
        rw [hmem p]
        simp [present, hget]
      · simp only [present, aget_aset, if_neg hp]
        exact hmem p
  | none =>
      have hnotmem : price ∉ t.sortedPrices := by
        intro hin
        have := (hmem price).mp hin
        simp [present, hget] at this
      refine ⟨pairwise_insertSortedList t.isAscending price t.sortedPrices hpw hnotmem, ?_⟩
      intro p
      rw [mem_insertSortedList]
      by_cases hp : p = price
      · subst hp
        simp [present, aget_aset]
      · simp only [present, aget_aset, if_neg hp, hp, false_or]
        exact hmem p

theorem treeInv_removeOrder (t : PriceLevelTree) (price : Price) (quantity : Qty)
    (orderId : String) (h : TreeInv t) :
    TreeInv (t.removeOrder price quantity orderId) := by
  obtain ⟨hpw, hmem⟩ := h
  unfold PriceLevelTree.removeOrder
  cases hget : aget t.levels price with
  | none => exact ⟨hpw, hmem⟩
  | some lvl =>
      dsimp only
      by_cases hdel : lvl.totalQuantity - quantity ≤ 0 ∨ lvl.orderCount - 1 ≤ 0
      · rw [if_pos hdel]
        refine ⟨hpw.filter _, ?_⟩
        intro p
        rw [List.mem_filter]
        by_cases hp : p = price
        · subst hp
          simp [present, aget_adel]
        · simp only [present, aget_adel, if_neg hp, decide_eq_true_eq]
          constructor
          · intro hin
            exact (hmem p).mp hin.1
          · intro hin
            exact ⟨(hmem p).mpr hin, hp⟩
      · rw [if_neg hdel]
        refine ⟨hpw, ?_⟩
        intro p
        by_cases hp : p = price
        · subst hp
          simp only [present, aget_aset, if_pos rfl, Option.isSome_some]
          rw [hmem p]
          simp [present, hget]
        · simp only [present, aget_aset, if_neg hp]
          exact hmem p

theorem treeInv_applyOp (t : PriceLevelTree) (op : TreeOp) (h : TreeInv t) :
    TreeInv (applyOp t op) := by
  cases op with
  | add price quantity orderId => exact treeInv_addOrder t price quantity orderId h
  | remove price quantity orderId => exact treeInv_removeOrder t price quantity orderId h

theorem treeInv_foldl (ops : List TreeOp) :
    ∀ t : PriceLevelTree, TreeInv t → TreeInv (ops.foldl applyOp t) := by
  induction ops with
  | nil => intro t h; exact h
  | cons op rest ih =>
      intro t h
      exact ih (applyOp t op) (treeInv_applyOp t op h)

theorem treeInv_buildTree (isAscending : Bool) (ops : List TreeOp) :
    TreeInv (buildTree isAscending ops) :=
  treeInv_foldl ops _ (treeInv_empty isAscending)

theorem isAscending_addOrder (t : PriceLevelTree) (price : Price) (quantity : Qty)
    (orderId : String) :
    (t.addOrder price quantity orderId).isAscending = t.isAscending := by
  unfold PriceLevelTree.addOrder
  split <;> rfl

theorem isAscending_removeOrder (t : PriceLevelTree) (price : Price) (quantity : Qty)
    (orderId : String) :
    (t.removeOrder price quantity orderId).isAscending = t.isAscending := by
  unfold PriceLevelTree.removeOrder
  repeat' split
  all_goals rfl

theorem isAscending_buildTree (isAscending : Bool) (ops : List TreeOp) :
    (buildTree isAscending ops).isAscending = isAscending := by
  suffices h : ∀ t : PriceLevelTree, (ops.foldl applyOp t).isAscending = t.isAscending by
    exact h (PriceLevelTree.empty isAscending)
  induction ops with
  | nil => intro t; rfl
  | cons op rest ih =>
      intro t
      rw [List.foldl_cons, ih]
      cases op with
      | add price quantity orderId => exact isAscending_addOrder t price quantity orderId
      | remove price quantity orderId => exact isAscending_removeOrder t price quantity orderId

theorem getBestPrice_none_iff (t : PriceLevelTree) (h : TreeInv t) :
    t.getBestPrice = none ↔ t.levels = [] := by
  obtain ⟨hpw, hmem⟩ := h
  unfold PriceLevelTree.getBestPrice
  constructor
  · intro hnone
    have hsorted : t.sortedPrices = [] := by
      cases hsp : t.sortedPrices with
      | nil => rfl
      | cons a rest => rw [hsp] at hnone; simp at hnone
    apply aget_eq_none_of_nil
    intro q
    have hq := hmem q
    rw [hsorted] at hq
    simp only [List.not_mem_nil, false_iff] at hq
    cases hget : aget t.levels q with
    | none => rfl
    | some v =>
        exfalso
        apply hq
        simp [present, hget]
  · intro hlv
    have hsorted : t.sortedPrices = [] := by
      apply List.eq_nil_iff_forall_not_mem.mpr
      intro q hq
      have := (hmem q).mp hq
      simp [present, hlv, aget] at this
    simp [hsorted]

theorem getBestPrice_best (t : PriceLevelTree) (h : TreeInv t) (p q : Price)
    (hp : t.getBestPrice = some p) (hq : present t q = true) :
    present t p = true ∧ (if t.isAscending then p ≤ q else q ≤ p) := by
  obtain ⟨hpw, hmem⟩ := h
  unfold PriceLevelTree.getBestPrice at hp
  cases hsp : t.sortedPrices with
  | nil => rw [hsp] at hp; simp at hp
  | cons a rest =>
      rw [hsp] at hp
      simp only [List.head?_cons, Option.some.injEq] at hp
      subst hp
      constructor
      · exact (hmem a).mp (by rw [hsp]; exact List.mem_cons_self a rest)
      · have hqmem : q ∈ t.sortedPrices := (hmem q).mpr hq
        rw [hsp] at hqmem
        rw [hsp] at hpw
        rcases List.mem_cons.mp hqmem with rfl | hqrest
        · split <;> exact le_rfl
        · have hrel := (List.pairwise_cons.mp hpw).1 q hqrest
          by_cases hasc : t.isAscending = true
          · rw [if_pos hasc]
            simp only [priceRel, hasc, if_true] at hrel
            exact le_of_lt hrel
          · rw [if_neg hasc]
            simp only [priceRel, hasc, if_false] at hrel
            exact le_of_lt hrel

/-- C9: best-price correctness of the PriceLevelTree.  For any sequence of
addOrder / removeOrder calls starting from the constructor, getBestPrice
returns none exactly when the level map is empty, and any returned price is
itself present and is the lowest present price for an ascending (ask-side)
tree, the highest for a descending (bid-side) tree. -/
theorem c9_best_price_correct (isAscending : Bool) (ops : List TreeOp) :
    ((buildTree isAscending ops).getBestPrice = none ↔
      (buildTree isAscending ops).levels = []) ∧
    ∀ p q : Price, (buildTree isAscending ops).getBestPrice = some p →
      present (buildTree isAscending ops) q = true →
      present (buildTree isAscending ops) p = true ∧
      (if isAscending then p ≤ q else q ≤ p) := by
  have hinv := treeInv_buildTree isAscending ops
  refine ⟨getBestPrice_none_iff _ hinv, ?_⟩
  intro p q hp hq
  have hres := getBestPrice_best _ hinv p q hp hq
  rwa [isAscending_buildTree isAscending ops] at hres

/-- Demo call sequence for the C9 witness: three inserts and one removal that
deletes the level at price 3, leaving levels at 5 and 7. -/
def c9DemoOps : List TreeOp :=
  [TreeOp.add 5 1 "a", TreeOp.add 3 2 "b", TreeOp.add 7 1 "c", TreeOp.remove 3 2 "b"]

/-- Witness for C9 at a concrete input: after the demo sequence on an
ascending tree the best price is 5, it is present, and 5 ≤ 7 for the other
present price 7. -/
theorem c9_witness :
    ((buildTree true c9DemoOps).getBestPrice = none ↔
      (buildTree true c9DemoOps).levels = []) ∧
    (present (buildTree true c9DemoOps) 5 = true ∧
      (if true then (5 : Price) ≤ 7 else (7 : Price) ≤ 5)) := by
  have h := c9_best_price_correct true c9DemoOps
  exact ⟨h.1, h.2 5 7 (by decide) (by decide)⟩

end Exch
